import Mathlib

/-!
# Delay queue over an ordered-set store (`delayqueue.go`)

A shallow embedding of `DelayQueue.AddJob`, of one iteration of the per-topic loop of
`DelayQueue.DelayHandle` (promotion) and of one iteration of the per-topic loop of
`DelayQueue.ReadyHandle` (dispatch).

* The clock `time.Now().Unix()` is an explicit argument `now`.
* `int64` values are integers; the two additions of the source wrap modulo `2^64`
  (`wrapInt64`).
* The Go `error` is `Option String` (`none` is `nil`), carrying the message.
* The store helpers (`ZAdd`, `HExistsBool`, ...) are declared in another file of the
  package; they are modelled from the store-adapter contract of the specification.
  Every call takes a fault argument: `some e` makes that call fail with error `e`.
* The goroutines of one topic are interleaved at the granularity of one loop iteration;
  the ticker and the one second deadline handed to the callback are not represented.
-/

namespace DelayQueue

/-! ## Machine integers -/

/-- Two's complement reduction of an integer to the `int64` range. -/
def wrapInt64 (x : Int) : Int :=
  (x + 2 ^ 63) % 2 ^ 64 - 2 ^ 63

/-! ## The store -/

/-- Modelled from the spec: the state behind the store adapter, whose Go file is not part
of the sources. The three key families of section 3: ordered sets (`member`, `score`),
hash maps (`field`, `value`) and lists, each addressed by a string key. An absent key
is the empty collection. The structure does not itself keep a key to one family, as
the keyspace of the store does; a statement that depends on it assumes it for the key
concerned. Scores are integers (epoch seconds). -/
@[ext]
structure Store where
  zsets : String → List (String × Int)
  hashes : String → List (String × String)
  lists : String → List String

/-- The store that holds nothing. -/
def Store.empty : Store :=
  ⟨fun _ => [], fun _ => [], fun _ => []⟩

/-- Replace the ordered set held at `key`. -/
def Store.setZ (st : Store) (key : String) (z : List (String × Int)) : Store :=
  { st with zsets := fun k => if k = key then z else st.zsets k }

/-- Replace the hash map held at `key`. -/
def Store.setH (st : Store) (key : String) (h : List (String × String)) : Store :=
  { st with hashes := fun k => if k = key then h else st.hashes k }

/-- Replace the list held at `key`. -/
def Store.setL (st : Store) (key : String) (l : List String) : Store :=
  { st with lists := fun k => if k = key then l else st.lists k }

/-- Entries of a keyed collection other than the one named `name`. -/
def dropName {β : Type} (name : String) (l : List (String × β)) : List (String × β) :=
  l.filter (fun e => decide (e.1 ≠ name))

/-- Value bound to `name` in a keyed collection, if any. -/
def findName {β : Type} (name : String) (l : List (String × β)) : Option β :=
  (l.find? (fun e => decide (e.1 = name))).map Prod.snd

/-- Whether a score lies in the closed range `[lo, hi]`. -/
def inRange (lo hi : Int) (score : Int) : Bool :=
  decide (lo ≤ score) && decide (score ≤ hi)

/-- Modelled from the spec: `orderedSetInsert(key, member, score)`, the absent helper
`ZAdd(key, score, member)`. Binds `member` to `score`, replacing an earlier binding.
A failed call changes nothing. -/
def ZAdd (fault : Option String) (st : Store) (key : String) (score : Int)
    (member : String) : Option String × Store :=
  match fault with
  | some e => (some e, st)
  | none => (none, st.setZ key (dropName member (st.zsets key) ++ [(member, score)]))

/-- Modelled from the spec: `orderedSetRemove(key, member)`, the absent helper
`ZDelete(key, member)`. A failed call changes nothing. -/
def ZDelete (fault : Option String) (st : Store) (key : String)
    (member : String) : Option String × Store :=
  match fault with
  | some e => (some e, st)
  | none => (none, st.setZ key (dropName member (st.zsets key)))

/-- Modelled from the spec: `orderedSetRangeByScore(key, minScore, maxScore)`, the absent
helper `ZRangeByScore`, returning the sequence of members whose score lies in the closed
range, in the order the set holds them (the specification leaves the order of promotion
open). A failed call returns the nil slice together with the error. -/
def ZRangeByScore (fault : Option String) (st : Store) (key : String)
    (lo hi : Int) : List String × Option String :=
  match fault with
  | some e => ([], some e)
  | none => (((st.zsets key).filter (fun e => inRange lo hi e.2)).map Prod.fst, none)

/-- Modelled from the spec: `orderedSetRemoveRangeByScore(key, minScore, maxScore)`, the
absent helper `ZRemRangeByScore`. A failed call changes nothing. -/
def ZRemRangeByScore (fault : Option String) (st : Store) (key : String)
    (lo hi : Int) : Option String × Store :=
  match fault with
  | some e => (some e, st)
  | none => (none, st.setZ key ((st.zsets key).filter (fun e => !inRange lo hi e.2)))

/-- Modelled from the spec: `hashExists(key, field)`, the absent helper `HExistsBool`.
A failed call returns `false` together with the error. -/
def HExistsBool (fault : Option String) (st : Store) (key : String)
    (field : String) : Bool × Option String :=
  match fault with
  | some e => (false, some e)
  | none => ((findName field (st.hashes key)).isSome, none)

/-- Modelled from the spec: `hashSet(key, field, value)`, the absent helper
`HSetInterface`. A failed call changes nothing. -/
def HSetInterface (fault : Option String) (st : Store) (key : String) (field : String)
    (value : String) : Option String × Store :=
  match fault with
  | some e => (some e, st)
  | none => (none, st.setH key (dropName field (st.hashes key) ++ [(field, value)]))

/-- Modelled from the spec: `hashGet(key, field)`, the absent helper `HGetString`. An
absent field and a failed call both return the empty string. -/
def HGetString (fault : Option String) (st : Store) (key : String)
    (field : String) : String × Option String :=
  match fault with
  | some e => ("", some e)
  | none => ((findName field (st.hashes key)).getD "", none)

/-- Modelled from the spec: `hashDelete(key, field)`, the absent helper `HDel`. A failed
call changes nothing. -/
def HDel (fault : Option String) (st : Store) (key : String)
    (field : String) : Option String × Store :=
  match fault with
  | some e => (some e, st)
  | none => (none, st.setH key (dropName field (st.hashes key)))

/-- Modelled from the spec: `listPushRight(key, value)`, which the specification gives as
the contract of the absent helper that the source calls `LPush`. Appends the value at
the right end. A failed call changes nothing. -/
def LPush (fault : Option String) (st : Store) (key : String)
    (value : String) : Option String × Store :=
  match fault with
  | some e => (some e, st)
  | none => (none, st.setL key (st.lists key ++ [value]))

/-- Modelled from the spec: `listPopLeft(key)`, the absent helper `LPop`. Removes and
returns the leftmost value; an empty list and a failed call both return the empty
string. -/
def LPop (fault : Option String) (st : Store) (key : String) :
    String × Option String × Store :=
  match fault with
  | some e => ("", some e, st)
  | none =>
    match st.lists key with
    | [] => ("", none, st)
    | v :: rest => (v, none, st.setL key rest)

/-! ## The queue -/

/-- The Go type `Callback`: the message is mapped to the returned error, `none` being
`nil`. The context argument only carries the deadline and is left out; a callback is
taken not to write to the store itself. -/
abbrev Callback := String → Option String

/-- The Go type `DelayQueue`. A lookup in `Handles` yields `none` where the Go map yields
a nil callback, be the topic absent or registered with nil. -/
structure Queue where
  Handles : String → Option Callback

/-- The registry built by `NewQueue`: no topic has a callback. -/
def NewQueue : Queue :=
  ⟨fun _ => none⟩

/-- The method `Register`. -/
def Register (q : Queue) (topic : String) (call : Option Callback) : Queue :=
  ⟨fun t => if t = topic then call else q.Handles t⟩

/-- The Go type `JobItem`. -/
structure JobItem where
  Topic : String
  Id : String
  Seconds : Int
  Message : String

/-- Faults of the store calls of one `AddJob`. -/
structure AddFaults where
  hexists : Option String
  zadd : Option String
  hset : Option String
  zdelete : Option String

/-- No store call of `AddJob` fails. -/
def AddFaults.none : AddFaults :=
  ⟨Option.none, Option.none, Option.none, Option.none⟩

/-- The method `AddJob`. The job pointer is `none` when nil. Returns the error and the
store after the call. -/
def AddJob (q : Queue) (f : AddFaults) (now : Int) (st : Store)
    (job : Option JobItem) : Option String × Store :=
  match job with
  | none => (some "job is nil", st)
  | some job =>
    match q.Handles job.Topic with
    | none => (some ("topic:" ++ job.Topic ++ " 未注册方法"), st)
    | some _ =>
      if (HExistsBool f.hexists st job.Topic job.Id).1 then
        (some ("job: " ++ job.Id ++ " existed"), st)
      else
        let delayTime := wrapInt64 (now + job.Seconds)
        match ZAdd f.zadd st job.Topic delayTime job.Id with
        | (some err, st1) => (some err, st1)
        | (none, st1) =>
          match HSetInterface f.hset st1 (job.Topic ++ "hash") job.Id job.Message with
          | (some err, st2) => (some err, (ZDelete f.zdelete st2 job.Topic job.Id).2)
          | (none, st2) => (none, st2)

/-- Faults of the store calls of one promotion tick; `lpush i` is the fault of the push
made in iteration `i` of the range loop. -/
structure PromoteFaults where
  zrange : Option String
  zrem : Option String
  lpush : Nat → Option String

/-- No store call of the promotion tick fails. -/
def PromoteFaults.none : PromoteFaults :=
  ⟨Option.none, Option.none, fun _ => Option.none⟩

/-- The loop `for id := range vals { LPush(topic+"list", id) }`. With a single iteration
variable the Go range clause over a slice yields the index, so `ids` runs over
`0, 1, ..., len(vals)-1`; the integer reaches the store in decimal. The error of `LPush`
is dropped. -/
def pushLoop (fault : Nat → Option String) (key : String) : List Nat → Store → Store
  | [], st => st
  | id :: ids, st => pushLoop fault key ids (LPush (fault id) st key (toString id)).2

/-- One iteration of the loop of `DelayHandle` for `topic` (the body after `<-t.C`). -/
def DelayHandleTick (f : PromoteFaults) (now : Int) (st : Store) (topic : String) : Store :=
  let vals := (ZRangeByScore f.zrange st topic 0 now).1
  if vals.length ≠ 0 then
    let st1 := (ZRemRangeByScore f.zrem st topic 0 now).2
    pushLoop f.lpush (topic ++ "list") (List.range vals.length) st1
  else st

/-- Faults of the store calls of one dispatch tick. -/
structure DispatchFaults where
  lpop : Option String
  hget : Option String
  zadd : Option String
  hdel : Option String

/-- No store call of the dispatch tick fails. -/
def DispatchFaults.none : DispatchFaults :=
  ⟨Option.none, Option.none, Option.none, Option.none⟩

/-- What one dispatch tick did: the store it leaves, the value `LPop` returned, and the
message the callback was invoked with (`none` when it was not invoked). -/
structure Dispatched where
  store : Store
  jobId : String
  invoked : Option String

/-- One iteration of the loop of `ReadyHandle` for `topic` with its non-nil callback
`handle` (the body after `<-t.C`); `now` is the clock read when the retry is scheduled. -/
def ReadyHandleTick (handle : Callback) (f : DispatchFaults) (now : Int) (st : Store)
    (topic : String) : Dispatched :=
  match LPop f.lpop st (topic ++ "list") with
  | (jobId, _, st1) =>
    if jobId ≠ "" then
      let message := (HGetString f.hget st1 (topic ++ "hash") jobId).1
      match handle message with
      | some _ => ⟨(ZAdd f.zadd st1 topic (wrapInt64 (now + 5)) jobId).2, jobId, some message⟩
      | none => ⟨(HDel f.hdel st1 (topic ++ "hash") jobId).2, jobId, some message⟩
    else ⟨st1, jobId, none⟩

/-- Successive dispatch ticks of one topic without store faults, one per clock reading
in the list: the values popped, in order, and the store left. -/
def dispatchRun (handle : Callback) (topic : String) : List Int → Store → List String × Store
  | [], st => ([], st)
  | now :: nows, st =>
    let d := ReadyHandleTick handle DispatchFaults.none now st topic
    let r := dispatchRun handle topic nows d.store
    (d.jobId :: r.1, r.2)

/-- The values one run of `pushLoop` appends, in the order of its pushes: the decimal
index of every iteration whose push does not fail. -/
def pushedValues (fault : Nat → Option String) (ids : List Nat) : List String :=
  (ids.filter (fun id => (fault id).isNone)).map toString

/-- The members the range query of a promotion tick returns. -/
def dueMembers (f : PromoteFaults) (now : Int) (st : Store) (topic : String) : List String :=
  (ZRangeByScore f.zrange st topic 0 now).1

/-! ## Concrete registries, jobs and stores -/

/-- A callback that accepts the message `ok` and rejects every other message. -/
def okOnly : Callback :=
  fun message => if message = "ok" then none else some "rejected"

/-- A registry with the single topic `t`. -/
def exQueue : Queue :=
  Register NewQueue "t" (some okOnly)

/-- A job of topic `t` due 100 seconds after admission. -/
def exJob : JobItem :=
  ⟨"t", "1", 100, "hello"⟩

/-- A second job with the topic and id of `exJob`. -/
def exDup : JobItem :=
  ⟨"t", "1", 50, "bye"⟩

/-- The store after `exJob` was admitted at time 10 into the empty store. -/
def exAdmitted : Store :=
  (AddJob exQueue AddFaults.none 10 Store.empty (some exJob)).2

/-- A store whose scheduled set of topic `t` already holds an entry for id `1`, with no
payload record. -/
def exStale : Store :=
  Store.empty.setZ "t" [("1", 7)]

/-- Only the payload insert fails. -/
def exHsetFails : AddFaults :=
  ⟨none, none, some "hset: connection lost", none⟩

/-- Only the payload-existence check fails. -/
def exCheckFails : AddFaults :=
  ⟨some "hexists: connection lost", none, none, none⟩

/-- A store whose scheduled set of topic `t` holds job `job-7` due at time 5 and job
`job-9` due at time 500. -/
def exDue : Store :=
  Store.empty.setZ "t" [("job-7", 5), ("job-9", 500)]

/-- Only the range removal fails. -/
def exRemFails : PromoteFaults :=
  ⟨none, some "zremrangebyscore: connection lost", fun _ => none⟩

/-- Only the ordered-set insert fails. -/
def exZaddFails : AddFaults :=
  ⟨none, some "zadd: connection lost", none, none⟩

/-- Only the range query fails. -/
def exRangeFails : PromoteFaults :=
  ⟨some "zrangebyscore: connection lost", none, fun _ => none⟩

/-- A store whose ready list of topic `t` holds `x` and whose scheduled set holds three
members due at times 1, 2 and 3. -/
def exBacklog : Store :=
  (Store.empty.setL "tlist" ["x"]).setZ "t" [("a", 1), ("b", 2), ("c", 3)]

/-- Only the deletion of the payload record fails. -/
def exHdelFails : DispatchFaults :=
  ⟨none, none, none, some "hdel: connection lost"⟩

/-- Only the pop fails. -/
def exPopFails : DispatchFaults :=
  ⟨some "lpop: connection lost", none, none, none⟩

/-- Only the payload read fails. -/
def exGetFails : DispatchFaults :=
  ⟨none, some "hget: connection lost", none, none⟩

/-- Only the insert of the retry entry fails. -/
def exRetryFails : DispatchFaults :=
  ⟨none, none, some "zadd: connection lost", none⟩

/-- A store whose ready list of topic `t` holds the empty string. -/
def exEmptyId : Store :=
  Store.empty.setL "tlist" [""]

/-- A store with job `8` of topic `t` ready and its payload `ok` recorded. -/
def exReadyOk : Store :=
  (Store.empty.setL "tlist" ["8"]).setH "thash" [("8", "ok")]

/-- A store with job `7` of topic `t` ready and its payload `hello` recorded. -/
def exReady : Store :=
  (Store.empty.setL "tlist" ["7", "8"]).setH "thash" [("7", "hello"), ("8", "ok")]


/-! ## Machine integers in range -/

/-- A sum that fits in `int64` is not changed by the reduction. -/
theorem wrapInt64_of_fits (x : Int) (hlo : -2 ^ 63 ≤ x) (hhi : x < 2 ^ 63) :
    wrapInt64 x = x := by
  unfold wrapInt64
  omega

/-! ## Keyed collections -/

theorem dropName_eq_self_iff {β : Type} (name : String) (l : List (String × β)) :
    dropName name l = l ↔ ∀ x ∈ l, x.1 ≠ name := by
  simp [dropName, List.filter_eq_self]

theorem dropName_idem {β : Type} (name : String) (l : List (String × β)) :
    dropName name (dropName name l) = dropName name l := by
  simp [dropName, List.filter_filter]

theorem dropName_append_self {β : Type} (name : String) (v : β) (l : List (String × β)) :
    dropName name (dropName name l ++ [(name, v)]) = dropName name l := by
  simp [dropName, List.filter_append, List.filter_filter]

theorem findName_dropName_self {β : Type} (name : String) (l : List (String × β)) :
    findName name (dropName name l) = none := by
  simp [findName, dropName, List.find?_filter]

theorem findName_dropName_other {β : Type} (name other : String) (hne : other ≠ name)
    (l : List (String × β)) : findName other (dropName name l) = findName other l := by
  have hp : (fun a : String × β =>
      decide (decide (a.1 ≠ name) = true ∧ decide (a.1 = other) = true)) =
      (fun a => decide (a.1 = other)) := by
    funext a
    by_cases ha : a.1 = other
    · simp [ha, hne]
    · simp [ha]
  simp only [findName, dropName, List.find?_filter, hp]

theorem findName_append_self {β : Type} (name : String) (v : β) (l : List (String × β)) :
    findName name (dropName name l ++ [(name, v)]) = some v := by
  have h := findName_dropName_self name l
  simp only [findName, Option.map_eq_none'] at h
  simp [findName, List.find?_append, h]

theorem findName_append_other {β : Type} (name other : String) (hne : other ≠ name) (v : β)
    (l : List (String × β)) :
    findName other (dropName name l ++ [(name, v)]) = findName other l := by
  have h := findName_dropName_other name other hne l
  have hno : ¬ name = other := fun h => hne h.symm
  simp only [findName, List.find?_append] at h ⊢
  rw [← h]
  cases List.find? (fun e => decide (e.1 = other)) (dropName name l) with
  | none => simp [List.find?_cons, hno]
  | some y => simp

/-! ## Store updates -/

theorem zsets_setZ (st : Store) (key : String) (z : List (String × Int)) :
    (st.setZ key z).zsets key = z := by
  simp [Store.setZ]

theorem zsets_setZ_other (st : Store) (key k : String) (z : List (String × Int))
    (hk : k ≠ key) : (st.setZ key z).zsets k = st.zsets k := by
  simp [Store.setZ, hk]

theorem hashes_setH (st : Store) (key : String) (h : List (String × String)) :
    (st.setH key h).hashes key = h := by
  simp [Store.setH]

theorem hashes_setH_other (st : Store) (key k : String) (h : List (String × String))
    (hk : k ≠ key) : (st.setH key h).hashes k = st.hashes k := by
  simp [Store.setH, hk]

theorem lists_setL (st : Store) (key : String) (l : List String) :
    (st.setL key l).lists key = l := by
  simp [Store.setL]

theorem lists_setL_other (st : Store) (key k : String) (l : List String)
    (hk : k ≠ key) : (st.setL key l).lists k = st.lists k := by
  simp [Store.setL, hk]

theorem setL_frame (st : Store) (key : String) (l : List String) :
    (st.setL key l).zsets = st.zsets ∧ (st.setL key l).hashes = st.hashes :=
  ⟨rfl, rfl⟩

theorem setZ_self (st : Store) (key : String) : st.setZ key (st.zsets key) = st := by
  ext k : 2
  · simp only [Store.setZ]
    split
    · next h => rw [h]
    · rfl
  · rfl
  · rfl

theorem setZ_eq_self_iff (st : Store) (key : String) (z : List (String × Int)) :
    st.setZ key z = st ↔ z = st.zsets key := by
  constructor
  · intro h
    have := congrArg (fun s => s.zsets key) h
    simpa [Store.setZ] using this
  · intro h
    rw [h]
    exact setZ_self st key

theorem setZ_setZ (st : Store) (key : String) (z z2 : List (String × Int)) :
    (st.setZ key z).setZ key z2 = st.setZ key z2 := by
  ext k : 2
  · simp only [Store.setZ]
    split <;> rfl
  · rfl
  · rfl


/-! ## Admission -/

/-- With a registered topic and a check that does not report a record, `AddJob` is the
insert, the payload write and, when the latter fails, the compensating removal. -/
theorem AddJob_of_check_false (q : Queue) (f : AddFaults) (now : Int) (st : Store)
    (job : JobItem) (h : Callback) (hreg : q.Handles job.Topic = some h)
    (hchk : (HExistsBool f.hexists st job.Topic job.Id).1 = false) :
    AddJob q f now st (some job) =
      match ZAdd f.zadd st job.Topic (wrapInt64 (now + job.Seconds)) job.Id with
      | (some err, st1) => (some err, st1)
      | (none, st1) =>
        match HSetInterface f.hset st1 (job.Topic ++ "hash") job.Id job.Message with
        | (some err, st2) => (some err, (ZDelete f.zdelete st2 job.Topic job.Id).2)
        | (none, st2) => (none, st2) := by
  simp [AddJob, hreg, hchk]

/-- With a registered topic and a check that reports a record, `AddJob` returns the
duplicate error and writes nothing. -/
theorem AddJob_of_check_true (q : Queue) (f : AddFaults) (now : Int) (st : Store)
    (job : JobItem) (h : Callback) (hreg : q.Handles job.Topic = some h)
    (hchk : (HExistsBool f.hexists st job.Topic job.Id).1 = true) :
    AddJob q f now st (some job) = (some ("job: " ++ job.Id ++ " existed"), st) := by
  simp [AddJob, hreg, hchk]

/-- Admission proper: with a registered topic, a check that reports no record and two
successful writes, `AddJob` returns nil and the store differs from the one before the call
in the binding of `job.Id` in the scheduled set keyed `job.Topic`, now
`now + job.Seconds` in `int64` arithmetic, and in the binding of `job.Id` in the hash map
keyed `job.Topic ++ "hash"`, now `job.Message`. -/
theorem AddJob_admits (q : Queue) (f : AddFaults) (now : Int) (st : Store) (job : JobItem)
    (h : Callback) (hreg : q.Handles job.Topic = some h)
    (hchk : (HExistsBool f.hexists st job.Topic job.Id).1 = false)
    (hz : f.zadd = none) (hs : f.hset = none) :
    AddJob q f now st (some job) =
      (none, (st.setZ job.Topic (dropName job.Id (st.zsets job.Topic) ++
          [(job.Id, wrapInt64 (now + job.Seconds))])).setH (job.Topic ++ "hash")
        (dropName job.Id (st.hashes (job.Topic ++ "hash")) ++ [(job.Id, job.Message)])) ∧
    findName job.Id ((AddJob q f now st (some job)).2.zsets job.Topic) =
      some (wrapInt64 (now + job.Seconds)) ∧
    findName job.Id ((AddJob q f now st (some job)).2.hashes (job.Topic ++ "hash")) =
      some job.Message ∧
    (∀ m, m ≠ job.Id → findName m ((AddJob q f now st (some job)).2.zsets job.Topic) =
      findName m (st.zsets job.Topic)) ∧
    (∀ m, m ≠ job.Id →
      findName m ((AddJob q f now st (some job)).2.hashes (job.Topic ++ "hash")) =
        findName m (st.hashes (job.Topic ++ "hash"))) ∧
    (∀ k, k ≠ job.Topic → (AddJob q f now st (some job)).2.zsets k = st.zsets k) ∧
    (∀ k, k ≠ job.Topic ++ "hash" →
      (AddJob q f now st (some job)).2.hashes k = st.hashes k) ∧
    (AddJob q f now st (some job)).2.lists = st.lists := by
  have hres : AddJob q f now st (some job) =
      (none, (st.setZ job.Topic (dropName job.Id (st.zsets job.Topic) ++
          [(job.Id, wrapInt64 (now + job.Seconds))])).setH (job.Topic ++ "hash")
        (dropName job.Id (st.hashes (job.Topic ++ "hash")) ++ [(job.Id, job.Message)])) := by
    rw [AddJob_of_check_false q f now st job h hreg hchk]
    simp only [ZAdd, HSetInterface, hz, hs]
    rfl
  rw [hres]
  refine ⟨rfl, ?_, ?_, ?_, ?_, ?_, ?_, rfl⟩
  · simp only [Store.setH, zsets_setZ]
    exact findName_append_self job.Id _ (st.zsets job.Topic)
  · simp only [hashes_setH]
    exact findName_append_self job.Id _ _
  · intro m hm
    simp only [Store.setH, zsets_setZ]
    exact findName_append_other job.Id m hm _ (st.zsets job.Topic)
  · intro m hm
    simp only [hashes_setH]
    exact findName_append_other job.Id m hm _ _
  · intro k hk
    exact zsets_setZ_other st job.Topic k _ hk
  · intro k hk
    simp only [hashes_setH_other _ _ _ _ hk]
    rfl

/-- C7: for a non-nil job whose topic has no callback in `Handles`, `AddJob` returns the
unregistered-topic error and hands back the store it was given: no scheduled set, payload
map or ready list is written, whatever the clock and the faults of the store. -/
theorem AddJob_unregistered_topic (q : Queue) (f : AddFaults) (now : Int) (st : Store)
    (job : JobItem) (hreg : q.Handles job.Topic = none) :
    AddJob q f now st (some job) = (some ("topic:" ++ job.Topic ++ " 未注册方法"), st) := by
  simp [AddJob, hreg]

/-- The topic `mail` is not registered in `exQueue`: the job is refused and the store
handed back. -/
theorem AddJob_unregistered_topic_witness :
    exQueue.Handles (JobItem.mk "mail" "1" 0 "m").Topic = none ∧
    AddJob exQueue AddFaults.none 10 exAdmitted (some (JobItem.mk "mail" "1" 0 "m")) =
      (some ("topic:" ++ (JobItem.mk "mail" "1" 0 "m").Topic ++ " 未注册方法"), exAdmitted) :=
  ⟨rfl, AddJob_unregistered_topic exQueue AddFaults.none 10 exAdmitted
    (JobItem.mk "mail" "1" 0 "m") rfl⟩

/-- C1: evaluation at the failing input. Job `1` of topic `t` is admitted at time 10 into
the empty store, so a payload record exists under the key `thash`. A second `AddJob` with
the same topic and id returns no error, because the check reads the hash map keyed `t`;
it replaces the score 110 by 60 and the message `hello` by `bye`. -/
theorem AddJob_duplicate_not_rejected :
    (AddJob exQueue AddFaults.none 10 Store.empty (some exJob)).1 = none ∧
    exAdmitted.zsets "t" = [("1", 110)] ∧
    findName exDup.Id (exAdmitted.hashes (exDup.Topic ++ "hash")) = some "hello" ∧
    (HExistsBool none exAdmitted exDup.Topic exDup.Id).1 = false ∧
    (AddJob exQueue AddFaults.none 10 exAdmitted (some exDup)).1 = none ∧
    (AddJob exQueue AddFaults.none 10 exAdmitted (some exDup)).2.zsets "t" = [("1", 60)] ∧
    (AddJob exQueue AddFaults.none 10 exAdmitted (some exDup)).2.hashes "thash" =
      [("1", "bye")] := by
  decide

/-- C2: for a non-nil job with a registered topic and no payload record under
`job.Topic ++ "hash"`, when the two writes succeed, `AddJob` at time `now` returns nil,
whatever the fault of the check, and the store after the call is the store before it with
two changes: the scheduled set keyed `job.Topic` binds `job.Id` to `now + job.Seconds`
(the `int64` sum, which is `now + job.Seconds` itself whenever that fits), and the hash
map keyed `job.Topic ++ "hash"` has gained the record of `job.Id` with `job.Message`.
Every other member, field and key, and every list, is as before. The key `job.Topic`
holds no hash map, as any key on which the ordered-set insert succeeds. -/
theorem AddJob_writes_two_entries (q : Queue) (f : AddFaults) (now : Int) (st : Store)
    (job : JobItem) (h : Callback) (hreg : q.Handles job.Topic = some h)
    (hrec : findName job.Id (st.hashes (job.Topic ++ "hash")) = none)
    (hkey : st.hashes job.Topic = []) (hz : f.zadd = none) (hs : f.hset = none) :
    (AddJob q f now st (some job)).1 = none ∧
    (AddJob q f now st (some job)).2 =
      (st.setZ job.Topic (dropName job.Id (st.zsets job.Topic) ++
          [(job.Id, wrapInt64 (now + job.Seconds))])).setH (job.Topic ++ "hash")
        (st.hashes (job.Topic ++ "hash") ++ [(job.Id, job.Message)]) ∧
    findName job.Id ((AddJob q f now st (some job)).2.zsets job.Topic) =
      some (wrapInt64 (now + job.Seconds)) ∧
    (-2 ^ 63 ≤ now + job.Seconds → now + job.Seconds < 2 ^ 63 →
      wrapInt64 (now + job.Seconds) = now + job.Seconds) ∧
    findName job.Id ((AddJob q f now st (some job)).2.hashes (job.Topic ++ "hash")) =
      some job.Message ∧
    (∀ m, m ≠ job.Id → findName m ((AddJob q f now st (some job)).2.zsets job.Topic) =
      findName m (st.zsets job.Topic)) ∧
    (∀ m, m ≠ job.Id →
      findName m ((AddJob q f now st (some job)).2.hashes (job.Topic ++ "hash")) =
        findName m (st.hashes (job.Topic ++ "hash"))) ∧
    (∀ k, k ≠ job.Topic → (AddJob q f now st (some job)).2.zsets k = st.zsets k) ∧
    (∀ k, k ≠ job.Topic ++ "hash" →
      (AddJob q f now st (some job)).2.hashes k = st.hashes k) ∧
    (AddJob q f now st (some job)).2.lists = st.lists := by
  have hchk : (HExistsBool f.hexists st job.Topic job.Id).1 = false := by
    cases f.hexists with
    | some e => rfl
    | none => simp [HExistsBool, hkey, findName]
  have hkeep : dropName job.Id (st.hashes (job.Topic ++ "hash")) =
      st.hashes (job.Topic ++ "hash") := by
    rw [dropName_eq_self_iff]
    intro x hx hname
    simp only [findName, Option.map_eq_none', List.find?_eq_none] at hrec
    exact hrec x hx (by simpa using hname)
  have hadm := AddJob_admits q f now st job h hreg hchk hz hs
  rw [hkeep] at hadm
  refine ⟨?_, hadm.1 ▸ rfl, hadm.2.1, ?_, hadm.2.2.1, hadm.2.2.2.1, hadm.2.2.2.2.1,
    hadm.2.2.2.2.2.1, hadm.2.2.2.2.2.2.1, hadm.2.2.2.2.2.2.2⟩
  · rw [hadm.1]
  · intro hlo hhi
    exact wrapInt64_of_fits (now + job.Seconds) hlo hhi

/-- At `exDue`, whose scheduled set of topic `t` holds two other jobs: `exJob` offered at
time 10 is admitted with score 110 and its message recorded. -/
theorem AddJob_writes_two_entries_witness :
    (findName exJob.Id (exDue.hashes (exJob.Topic ++ "hash")) = none ∧
      exDue.hashes exJob.Topic = []) ∧
    (AddJob exQueue AddFaults.none 10 exDue (some exJob)).1 = none ∧
    findName exJob.Id ((AddJob exQueue AddFaults.none 10 exDue (some exJob)).2.zsets
      exJob.Topic) = some (wrapInt64 (10 + exJob.Seconds)) ∧
    wrapInt64 (10 + exJob.Seconds) = 10 + exJob.Seconds ∧
    findName exJob.Id ((AddJob exQueue AddFaults.none 10 exDue (some exJob)).2.hashes
      (exJob.Topic ++ "hash")) = some exJob.Message ∧
    (AddJob exQueue AddFaults.none 10 exDue (some exJob)).2.lists = exDue.lists :=
  ⟨⟨by decide, by decide⟩,
    (AddJob_writes_two_entries exQueue AddFaults.none 10 exDue exJob okOnly rfl
      (by decide) (by decide) rfl rfl).1,
    (AddJob_writes_two_entries exQueue AddFaults.none 10 exDue exJob okOnly rfl
      (by decide) (by decide) rfl rfl).2.2.1,
    (AddJob_writes_two_entries exQueue AddFaults.none 10 exDue exJob okOnly rfl
      (by decide) (by decide) rfl rfl).2.2.2.1 (by decide) (by decide),
    (AddJob_writes_two_entries exQueue AddFaults.none 10 exDue exJob okOnly rfl
      (by decide) (by decide) rfl rfl).2.2.2.2.1,
    (AddJob_writes_two_entries exQueue AddFaults.none 10 exDue exJob okOnly rfl
      (by decide) (by decide) rfl rfl).2.2.2.2.2.2.2.2.2⟩

/-- C3, refuted as stated: the scheduled set of topic `t` holds id `1` with score 7, the
insert succeeds, the payload insert fails and the removal succeeds. `AddJob` returns the
payload-insert error, and the entry held before the call is gone. -/
theorem AddJob_rollback_removes_earlier_entry :
    (HExistsBool exHsetFails.hexists exStale exJob.Topic exJob.Id).1 = false ∧
    (ZAdd exHsetFails.zadd exStale exJob.Topic (wrapInt64 (10 + exJob.Seconds)) exJob.Id).1 =
      none ∧
    (AddJob exQueue exHsetFails 10 exStale (some exJob)).1 = some "hset: connection lost" ∧
    exStale.zsets "t" = [("1", 7)] ∧
    (AddJob exQueue exHsetFails 10 exStale (some exJob)).2.zsets "t" = [] ∧
    (AddJob exQueue exHsetFails 10 exStale (some exJob)).2 ≠ exStale := by
  refine ⟨by decide, by decide, by decide, by decide, by decide, ?_⟩
  intro h
  have hz := congrArg (fun s => s.zsets "t") h
  revert hz
  decide

/-- C3, amended: when the topic is registered, the check reports no record, the insert
succeeds, the payload insert fails with `e` and the compensating removal succeeds,
`AddJob` returns `e` and the store differs from the one before the call at most in the
scheduled set of the topic, from which every entry of `job.Id` is gone; so the store is
the one before the call exactly when that set held no entry for `job.Id`. -/
theorem AddJob_rollback (q : Queue) (f : AddFaults) (now : Int) (st : Store) (job : JobItem)
    (h : Callback) (e : String) (hreg : q.Handles job.Topic = some h)
    (hchk : (HExistsBool f.hexists st job.Topic job.Id).1 = false)
    (hz : f.zadd = none) (hs : f.hset = some e) (hd : f.zdelete = none) :
    (AddJob q f now st (some job)).1 = some e ∧
    (AddJob q f now st (some job)).2 =
      st.setZ job.Topic (dropName job.Id (st.zsets job.Topic)) ∧
    ((AddJob q f now st (some job)).2 = st ↔ ∀ x ∈ st.zsets job.Topic, x.1 ≠ job.Id) := by
  have hres : AddJob q f now st (some job) =
      (some e, st.setZ job.Topic (dropName job.Id (st.zsets job.Topic))) := by
    rw [AddJob_of_check_false q f now st job h hreg hchk]
    simp [ZAdd, HSetInterface, ZDelete, hz, hs, hd, setZ_setZ, zsets_setZ,
      dropName_append_self]
  rw [hres]
  refine ⟨rfl, rfl, ?_⟩
  simp only [setZ_eq_self_iff]
  exact dropName_eq_self_iff job.Id (st.zsets job.Topic)

/-- The rollback at the empty store, where only the payload insert fails. -/
theorem AddJob_rollback_witness :
    (AddJob exQueue exHsetFails 10 Store.empty (some exJob)).1 =
      some "hset: connection lost" ∧
    (AddJob exQueue exHsetFails 10 Store.empty (some exJob)).2 =
      Store.empty.setZ exJob.Topic (dropName exJob.Id (Store.empty.zsets exJob.Topic)) ∧
    ((AddJob exQueue exHsetFails 10 Store.empty (some exJob)).2 = Store.empty ↔
      ∀ x ∈ Store.empty.zsets exJob.Topic, x.1 ≠ exJob.Id) :=
  AddJob_rollback exQueue exHsetFails 10 Store.empty exJob okOnly "hset: connection lost"
    rfl rfl rfl rfl rfl

/-- C9, refuted as stated: the payload-existence check fails, its error is dropped, the
two writes succeed and `AddJob` returns no error. -/
theorem AddJob_check_failure_not_surfaced :
    (exQueue.Handles exJob.Topic).isSome = true ∧
    (HExistsBool exCheckFails.hexists Store.empty exJob.Topic exJob.Id).2 =
      some "hexists: connection lost" ∧
    (AddJob exQueue exCheckFails 10 Store.empty (some exJob)).1 = none := by
  decide

/-- C9, amended: for a non-nil job with a registered topic, a failing ordered-set insert
or a failing payload insert makes `AddJob` return an error: when the check reports no
record the error returned is that of the insert, or that of the payload insert after a
successful insert. A failing payload-existence check is not surfaced: it counts as
"no record", and `AddJob` returns no error when the two writes then succeed. -/
theorem AddJob_surfaces_write_failures (q : Queue) (f : AddFaults) (now : Int) (st : Store)
    (job : JobItem) (h : Callback) (hreg : q.Handles job.Topic = some h) :
    ((f.zadd.isSome = true ∨ f.hset.isSome = true) →
      (AddJob q f now st (some job)).1.isSome = true) ∧
    (∀ e, (HExistsBool f.hexists st job.Topic job.Id).1 = false → f.zadd = some e →
      AddJob q f now st (some job) = (some e, st)) ∧
    (∀ e, (HExistsBool f.hexists st job.Topic job.Id).1 = false → f.zadd = none →
      f.hset = some e → (AddJob q f now st (some job)).1 = some e) ∧
    (f.hexists.isSome = true → f.zadd = none → f.hset = none →
      (AddJob q f now st (some job)).1 = none) := by
  refine ⟨?_, ?_, ?_, ?_⟩
  · intro hf
    cases hchk : (HExistsBool f.hexists st job.Topic job.Id).1 with
    | true => rw [AddJob_of_check_true q f now st job h hreg hchk]; rfl
    | false =>
      rw [AddJob_of_check_false q f now st job h hreg hchk]
      cases hz : f.zadd with
      | some e => simp [ZAdd]
      | none =>
        cases hs : f.hset with
        | some e => simp [ZAdd, HSetInterface]
        | none => simp [hz, hs] at hf
  · intro e hchk hz
    rw [AddJob_of_check_false q f now st job h hreg hchk]
    simp [ZAdd, hz]
  · intro e hchk hz hs
    rw [AddJob_of_check_false q f now st job h hreg hchk]
    simp [ZAdd, HSetInterface, hz, hs]
  · intro hx hz hs
    have hchk : (HExistsBool f.hexists st job.Topic job.Id).1 = false := by
      cases hx2 : f.hexists with
      | some e => simp [HExistsBool]
      | none => simp [hx2] at hx
    rw [AddJob_of_check_false q f now st job h hreg hchk]
    simp [ZAdd, HSetInterface, hz, hs]

/-- The three fault patterns at a registered topic: a failing payload insert and a
failing ordered-set insert are returned, a failing check is not. -/
theorem AddJob_surfaces_write_failures_witness :
    (AddJob exQueue exHsetFails 10 exStale (some exJob)).1.isSome = true ∧
    AddJob exQueue exZaddFails 10 exStale (some exJob) =
      (some "zadd: connection lost", exStale) ∧
    (AddJob exQueue exHsetFails 10 exStale (some exJob)).1 = some "hset: connection lost" ∧
    (AddJob exQueue exCheckFails 10 exStale (some exJob)).1 = none :=
  ⟨(AddJob_surfaces_write_failures exQueue exHsetFails 10 exStale exJob okOnly rfl).1
      (Or.inr rfl),
    (AddJob_surfaces_write_failures exQueue exZaddFails 10 exStale exJob okOnly rfl).2.1
      "zadd: connection lost" (by decide) rfl,
    (AddJob_surfaces_write_failures exQueue exHsetFails 10 exStale exJob okOnly rfl).2.2.1
      "hset: connection lost" (by decide) rfl rfl,
    (AddJob_surfaces_write_failures exQueue exCheckFails 10 exStale exJob okOnly rfl).2.2.2
      rfl rfl rfl⟩


/-! ## Promotion -/

theorem setL_self (st : Store) (key : String) : st.setL key (st.lists key) = st := by
  ext k : 2
  · rfl
  · rfl
  · simp only [Store.setL]
    split
    · next h => rw [h]
    · rfl

theorem setL_setL (st : Store) (key : String) (l l2 : List String) :
    (st.setL key l).setL key l2 = st.setL key l2 := by
  ext k : 2
  · rfl
  · rfl
  · simp only [Store.setL]
    split <;> rfl

/-- The range loop appends `pushedValues` at the right end of the list and touches nothing
else. -/
theorem pushLoop_eq (fault : Nat → Option String) (key : String) (ids : List Nat)
    (st : Store) :
    pushLoop fault key ids st = st.setL key (st.lists key ++ pushedValues fault ids) := by
  induction ids generalizing st with
  | nil => simp [pushLoop, pushedValues, setL_self]
  | cons id ids ih =>
    rw [pushLoop, ih]
    cases hf : fault id with
    | some e => simp [LPush, pushedValues, List.filter_cons, hf]
    | none =>
      simp [LPush, pushedValues, List.filter_cons, hf, setL_setL, lists_setL]

/-- The tick when the range query returns nothing: the store is left as it is. -/
theorem DelayHandleTick_of_nil (f : PromoteFaults) (now : Int) (st : Store) (topic : String)
    (hv : dueMembers f now st topic = []) : DelayHandleTick f now st topic = st := by
  simp only [dueMembers] at hv
  simp [DelayHandleTick, hv]

/-- The range removal leaves the lists and the hash maps alone. -/
theorem ZRemRangeByScore_frame (fault : Option String) (st : Store) (key : String)
    (lo hi : Int) :
    (ZRemRangeByScore fault st key lo hi).2.lists = st.lists ∧
    (ZRemRangeByScore fault st key lo hi).2.hashes = st.hashes := by
  cases fault <;> simp [ZRemRangeByScore, Store.setZ]

/-- The tick when the range query returns something: after the range removal, whose error
is dropped, the range loop appends `pushedValues`. -/
theorem DelayHandleTick_of_ne_nil (f : PromoteFaults) (now : Int) (st : Store)
    (topic : String) (hv : dueMembers f now st topic ≠ []) :
    DelayHandleTick f now st topic =
      ((ZRemRangeByScore f.zrem st topic 0 now).2).setL (topic ++ "list")
        (st.lists (topic ++ "list") ++
          pushedValues f.lpush (List.range (dueMembers f now st topic).length)) := by
  have hlen : ¬ (ZRangeByScore f.zrange st topic 0 now).1.length = 0 := by
    simpa [dueMembers] using hv
  simp only [DelayHandleTick, ne_eq, hlen, not_false_eq_true, if_true, pushLoop_eq,
    dueMembers, (ZRemRangeByScore_frame f.zrem st topic 0 now).1]

/-- The ready list after a tick, in both cases. -/
theorem DelayHandleTick_lists (f : PromoteFaults) (now : Int) (st : Store) (topic : String) :
    (DelayHandleTick f now st topic).lists (topic ++ "list") =
      st.lists (topic ++ "list") ++
        pushedValues f.lpush (List.range (dueMembers f now st topic).length) := by
  by_cases hv : dueMembers f now st topic = []
  · rw [DelayHandleTick_of_nil f now st topic hv]
    simp [hv, pushedValues]
  · rw [DelayHandleTick_of_ne_nil f now st topic hv, lists_setL]


theorem mem_of_mem_dropName {β : Type} (name : String) (l : List (String × β))
    (x : String × β) (hx : x ∈ dropName name l) : x ∈ l := by
  simp only [dropName, List.mem_filter] at hx
  exact hx.1

/-- What `AddJob` can do to the lists and the scheduled sets, on every path. -/
theorem AddJob_frame (q : Queue) (f : AddFaults) (t : Int) (st : Store) (job : JobItem) :
    (AddJob q f t st (some job)).2.lists = st.lists ∧
    ∀ k x, x ∈ (AddJob q f t st (some job)).2.zsets k →
      x ∈ st.zsets k ∨ x = (job.Id, wrapInt64 (t + job.Seconds)) := by
  cases hreg : q.Handles job.Topic with
  | none =>
    have hres : AddJob q f t st (some job) =
        (some ("topic:" ++ job.Topic ++ " 未注册方法"), st) := by
      simp [AddJob, hreg]
    rw [hres]
    exact ⟨rfl, fun k x hx => Or.inl hx⟩
  | some h =>
    cases hchk : (HExistsBool f.hexists st job.Topic job.Id).1 with
    | true =>
      rw [AddJob_of_check_true q f t st job h hreg hchk]
      exact ⟨rfl, fun k x hx => Or.inl hx⟩
    | false =>
      rw [AddJob_of_check_false q f t st job h hreg hchk]
      cases f.zadd with
      | some e => exact ⟨rfl, fun k x hx => Or.inl hx⟩
      | none =>
        cases f.hset with
        | some e =>
          cases f.zdelete with
          | some e2 =>
            refine ⟨rfl, fun k x hx => ?_⟩
            by_cases hk : k = job.Topic
            · subst hk
              simp only [ZAdd, HSetInterface, ZDelete, zsets_setZ, List.mem_append,
                List.mem_singleton] at hx
              exact hx.imp (mem_of_mem_dropName _ _ _) id
            · simp only [ZAdd, HSetInterface, ZDelete, zsets_setZ_other _ _ _ _ hk] at hx
              exact Or.inl hx
          | none =>
            refine ⟨rfl, fun k x hx => ?_⟩
            by_cases hk : k = job.Topic
            · subst hk
              simp only [ZAdd, HSetInterface, ZDelete, zsets_setZ, setZ_setZ,
                dropName_append_self] at hx
              exact Or.inl (mem_of_mem_dropName _ _ _ hx)
            · simp only [ZAdd, HSetInterface, ZDelete, setZ_setZ,
                zsets_setZ_other _ _ _ _ hk] at hx
              exact Or.inl hx
        | none =>
          refine ⟨rfl, fun k x hx => ?_⟩
          by_cases hk : k = job.Topic
          · subst hk
            simp only [ZAdd, HSetInterface, Store.setH, Store.setZ, if_true, List.mem_append,
              List.mem_singleton] at hx
            exact hx.imp (mem_of_mem_dropName _ _ _) id
          · simp only [ZAdd, HSetInterface, Store.setH, Store.setZ, if_neg hk] at hx
            exact Or.inl hx


theorem dueMembers_eq_nil (f : PromoteFaults) (now : Int) (st : Store) (topic : String)
    (hnone : ∀ x ∈ st.zsets topic, ¬ (0 ≤ x.2 ∧ x.2 ≤ now)) :
    dueMembers f now st topic = [] := by
  cases hf : f.zrange with
  | some e => simp [dueMembers, ZRangeByScore, hf]
  | none =>
    simp only [dueMembers, ZRangeByScore, hf, List.map_eq_nil_iff, List.filter_eq_nil_iff]
    intro x hx
    simpa [inRange] using hnone x hx

/-- The scheduled sets after a tick: nothing is added, and only entries of the topic with
a score in `[0, now]` can be missing. -/
theorem DelayHandleTick_zsets (f : PromoteFaults) (now : Int) (st : Store) (topic : String)
    (k : String) (x : String × Int) :
    (x ∈ (DelayHandleTick f now st topic).zsets k → x ∈ st.zsets k) ∧
    (x ∈ st.zsets k → (k ≠ topic ∨ now < x.2 ∨ x.2 < 0) →
      x ∈ (DelayHandleTick f now st topic).zsets k) := by
  by_cases hv : dueMembers f now st topic = []
  · rw [DelayHandleTick_of_nil f now st topic hv]
    exact ⟨id, fun hx _ => hx⟩
  · rw [DelayHandleTick_of_ne_nil f now st topic hv]
    cases f.zrem with
    | some e => exact ⟨id, fun hx _ => hx⟩
    | none =>
      by_cases hk : k = topic
      · subst hk
        simp only [ZRemRangeByScore, Store.setL, Store.setZ, if_true, List.mem_filter]
        refine ⟨fun hx => hx.1, fun hx hor => ⟨hx, ?_⟩⟩
        rcases hor with h | h | h
        · exact absurd rfl h
        · simp only [inRange, Bool.not_and, Bool.or_eq_true, Bool.not_eq_true',
            decide_eq_false_iff_not, not_le]
          exact Or.inr h
        · simp only [inRange, Bool.not_and, Bool.or_eq_true, Bool.not_eq_true',
            decide_eq_false_iff_not, not_le]
          exact Or.inl h
      · simp only [ZRemRangeByScore, Store.setL, Store.setZ, if_neg hk]
        exact ⟨id, fun hx _ => hx⟩

/-- The removal of a tick whose store calls succeed: no entry with a score in `[0, now]`
is left in the scheduled set of the topic. -/
theorem DelayHandleTick_removes_due (f : PromoteFaults) (now : Int) (st : Store)
    (topic : String) (hq : f.zrange = none) (hr : f.zrem = none) :
    ∀ x ∈ (DelayHandleTick f now st topic).zsets topic, ¬ (0 ≤ x.2 ∧ x.2 ≤ now) := by
  intro x hx hdue
  by_cases hv : dueMembers f now st topic = []
  · rw [DelayHandleTick_of_nil f now st topic hv] at hx
    simp only [dueMembers, ZRangeByScore, hq, List.map_eq_nil_iff,
      List.filter_eq_nil_iff] at hv
    exact hv x hx (by simpa [inRange] using hdue)
  · rw [DelayHandleTick_of_ne_nil f now st topic hv] at hx
    simp only [ZRemRangeByScore, hr, Store.setL, Store.setZ, if_true, List.mem_filter] at hx
    have hin : inRange 0 now x.2 = true := by simpa [inRange] using hdue
    simp [hin] at hx

/-- C4: evaluation at the failing input. The scheduled set of topic `t` holds `job-7` with
score 5 and `job-9` with score 500; the tick at time 10, every store call succeeding,
reads `job-7`, removes it from the scheduled set and pushes `0`, the position of `job-7`
in the result of the range query, onto the ready list. The next dispatch tick therefore
looks up the payload of a job `0`. -/
theorem DelayHandleTick_pushes_position :
    dueMembers PromoteFaults.none 10 exDue "t" = ["job-7"] ∧
    (DelayHandleTick PromoteFaults.none 10 exDue "t").zsets "t" = [("job-9", 500)] ∧
    (DelayHandleTick PromoteFaults.none 10 exDue "t").lists "tlist" = ["0"] ∧
    (ReadyHandleTick okOnly DispatchFaults.none 11
      (DelayHandleTick PromoteFaults.none 10 exDue "t") "t").jobId = "0" := by
  decide

/-- C8: a promotion tick, whatever the faults of its store calls, keeps every scheduled
entry whose score is above `now` (under every key, with its score) and adds no entry to a
scheduled set; when no entry of the topic has a score in `[0, now]` the tick leaves the
whole store, so the ready list and the scheduled set, as it was. In particular a job
offered to `AddJob` with `Seconds = 100` at time `t`, into a store whose scheduled set of
the topic has nothing due at `now < t + 100`, leaves every ready list as it was before the
admission. -/
theorem DelayHandleTick_keeps_future (f : PromoteFaults) (now : Int) (st : Store)
    (topic : String) :
    (∀ k m sc, (m, sc) ∈ st.zsets k → now < sc →
      (m, sc) ∈ (DelayHandleTick f now st topic).zsets k) ∧
    (∀ k x, x ∈ (DelayHandleTick f now st topic).zsets k → x ∈ st.zsets k) ∧
    ((∀ x ∈ st.zsets topic, ¬ (0 ≤ x.2 ∧ x.2 ≤ now)) →
      DelayHandleTick f now st topic = st) ∧
    (∀ (q : Queue) (fa : AddFaults) (t : Int) (job : JobItem),
      job.Topic = topic → job.Seconds = 100 → -2 ^ 63 ≤ t → t + 100 < 2 ^ 63 →
      now < t + 100 → (∀ x ∈ st.zsets topic, ¬ (0 ≤ x.2 ∧ x.2 ≤ now)) →
      (DelayHandleTick f now (AddJob q fa t st (some job)).2 topic).lists = st.lists) := by
  refine ⟨?_, ?_, ?_, ?_⟩
  · intro k m sc hmem hsc
    exact (DelayHandleTick_zsets f now st topic k (m, sc)).2 hmem (Or.inr (Or.inl hsc))
  · intro k x hx
    exact (DelayHandleTick_zsets f now st topic k x).1 hx
  · intro hnone
    exact DelayHandleTick_of_nil f now st topic (dueMembers_eq_nil f now st topic hnone)
  · intro q fa t job htopic hsec hlo hhi hnow hnone
    have hframe := AddJob_frame q fa t st job
    have hnone2 : ∀ x ∈ (AddJob q fa t st (some job)).2.zsets topic,
        ¬ (0 ≤ x.2 ∧ x.2 ≤ now) := by
      intro x hx
      rcases hframe.2 topic x hx with h | h
      · exact hnone x h
      · have hw : wrapInt64 (t + job.Seconds) = t + 100 := by
          rw [hsec]
          exact wrapInt64_of_fits (t + 100) (by omega) hhi
        rw [h, hw]
        intro hcon
        exact absurd hcon.2 (not_le.mpr hnow)
    rw [DelayHandleTick_of_nil f now _ topic (dueMembers_eq_nil f now _ topic hnone2)]
    exact hframe.1

/-- At `exDue`: the tick at time 10 keeps `job-9`, the tick at time 4 changes nothing, and
so does the tick at time 4 after a job with `Seconds = 100` was admitted at time 2. -/
theorem DelayHandleTick_keeps_future_witness :
    ("job-9", (500 : Int)) ∈ (DelayHandleTick PromoteFaults.none 10 exDue "t").zsets "t" ∧
    DelayHandleTick PromoteFaults.none 4 exDue "t" = exDue ∧
    (DelayHandleTick PromoteFaults.none 4
      (AddJob exQueue AddFaults.none 2 exDue (some exJob)).2 "t").lists = exDue.lists :=
  ⟨(DelayHandleTick_keeps_future PromoteFaults.none 10 exDue "t").1 "t" "job-9" 500
      (by decide) (by decide),
    (DelayHandleTick_keeps_future PromoteFaults.none 4 exDue "t").2.2.1 (by decide),
    (DelayHandleTick_keeps_future PromoteFaults.none 4 exDue "t").2.2.2 exQueue
      AddFaults.none 2 exJob rfl rfl (by decide) (by decide) (by decide) (by decide)⟩

/-- C10, refuted as stated: the range query succeeds and returns `job-7`, the range
removal fails, and the tick still pushes onto the ready list, which was empty. -/
theorem DelayHandleTick_pushes_after_failed_removal :
    (ZRangeByScore exRemFails.zrange exDue "t" 0 10) = (["job-7"], none) ∧
    (ZRemRangeByScore exRemFails.zrem exDue "t" 0 10).1 =
      some "zremrangebyscore: connection lost" ∧
    exDue.lists "tlist" = [] ∧
    (DelayHandleTick exRemFails 10 exDue "t").lists "tlist" = ["0"] ∧
    (DelayHandleTick exRemFails 10 exDue "t").zsets "t" = [("job-7", 5), ("job-9", 500)] := by
  decide

/-- C10, amended: when the range query of a promotion tick fails, the tick writes nothing:
the store is left as it was. When the range query succeeds with a non-empty result and
the range removal fails, the tick is not abandoned: the scheduled sets and the hash maps
are left as they were and the range loop still runs, appending to the ready list one
value per member returned (the decimal index of each iteration whose push succeeds). -/
theorem DelayHandleTick_on_store_failure (f : PromoteFaults) (now : Int) (st : Store)
    (topic : String) :
    (∀ e, f.zrange = some e → DelayHandleTick f now st topic = st) ∧
    (∀ e, f.zrange = none → f.zrem = some e → dueMembers f now st topic ≠ [] →
      DelayHandleTick f now st topic =
        st.setL (topic ++ "list") (st.lists (topic ++ "list") ++
          pushedValues f.lpush (List.range (dueMembers f now st topic).length))) := by
  refine ⟨?_, ?_⟩
  · intro e he
    apply DelayHandleTick_of_nil
    simp [dueMembers, ZRangeByScore, he]
  · intro e _ hrem hv
    rw [DelayHandleTick_of_ne_nil f now st topic hv]
    simp [ZRemRangeByScore, hrem]

/-- At `exDue` and time 10: a failing range query leaves the store, a failing range
removal is followed by the pushes. -/
theorem DelayHandleTick_on_store_failure_witness :
    DelayHandleTick exRangeFails 10 exDue "t" = exDue ∧
    DelayHandleTick exRemFails 10 exDue "t" =
      exDue.setL ("t" ++ "list") (exDue.lists ("t" ++ "list") ++
        pushedValues exRemFails.lpush
          (List.range (dueMembers exRemFails 10 exDue "t").length)) :=
  ⟨(DelayHandleTick_on_store_failure exRangeFails 10 exDue "t").1
      "zrangebyscore: connection lost" rfl,
    (DelayHandleTick_on_store_failure exRemFails 10 exDue "t").2
      "zremrangebyscore: connection lost" rfl rfl (by decide)⟩


/-! ## Dispatch -/

/-- The pop of a dispatch tick without faults: the leftmost value is returned and the
rest of the list stays, in order, whatever the callback answers. -/
theorem ReadyHandleTick_pop (handle : Callback) (now : Int) (st : Store) (topic : String)
    (j : String) (rest : List String) (hl : st.lists (topic ++ "list") = j :: rest) :
    (ReadyHandleTick handle DispatchFaults.none now st topic).jobId = j ∧
    (ReadyHandleTick handle DispatchFaults.none now st topic).store.lists (topic ++ "list") =
      rest := by
  by_cases hj : j = ""
  · simp [ReadyHandleTick, DispatchFaults.none, LPop, hl, hj, lists_setL]
  · cases hh : handle (HGetString none (st.setL (topic ++ "list") rest)
        (topic ++ "hash") j).1 with
    | none =>
      simp [ReadyHandleTick, DispatchFaults.none, LPop, hl, hj, hh, HDel, Store.setH,
        lists_setL]
    | some e =>
      simp [ReadyHandleTick, DispatchFaults.none, LPop, hl, hj, hh, ZAdd, Store.setZ,
        lists_setL]

/-- The pop of a dispatch tick without faults on an empty list: nothing is returned and
the list stays empty. -/
theorem ReadyHandleTick_pop_nil (handle : Callback) (now : Int) (st : Store) (topic : String)
    (hl : st.lists (topic ++ "list") = []) :
    (ReadyHandleTick handle DispatchFaults.none now st topic).jobId = "" ∧
    (ReadyHandleTick handle DispatchFaults.none now st topic).store = st := by
  simp [ReadyHandleTick, DispatchFaults.none, LPop, hl]

/-- Successive dispatch ticks pop the ready list from its left end, in order; once the
list is empty every further tick pops nothing. -/
theorem dispatchRun_pops (handle : Callback) (topic : String) (nows : List Int)
    (st : Store) :
    (dispatchRun handle topic nows st).1 =
      (st.lists (topic ++ "list")).take nows.length ++
        List.replicate (nows.length - (st.lists (topic ++ "list")).length) "" := by
  induction nows generalizing st with
  | nil => simp [dispatchRun]
  | cons now nows ih =>
    cases hl : st.lists (topic ++ "list") with
    | nil =>
      have hpop := ReadyHandleTick_pop_nil handle now st topic hl
      simp only [dispatchRun, List.length_cons, List.take_nil, List.nil_append,
        List.length_nil, Nat.sub_zero, List.replicate_succ]
      rw [ih, hpop.1, hpop.2, hl]
      simp
    | cons j rest =>
      have hpop := ReadyHandleTick_pop handle now st topic j rest hl
      simp only [dispatchRun, List.length_cons, List.take_succ_cons, Nat.succ_sub_succ,
        List.cons_append]
      rw [ih, hpop.1, hpop.2]

/-- C5, refuted as stated. At `exEmptyId` the ready list of topic `t` is not empty, its
leftmost value being the empty string: the dispatch tick, every store call succeeding,
pops it and does not invoke the callback. The other inputs have a ready job and one
failing store call. At `exReadyOk` the callback accepts the payload `ok` of job `8` and
the deletion fails: the record is still there after the tick. At `exReady` with a
failing pop nothing is popped and no callback is invoked. At `exReadyOk` with a failing
payload read the callback is invoked with the empty string, not with `ok`. At `exReady`
the callback rejects the payload `hello` of job `7` and the insert fails: the scheduled
set does not hold `7`. -/
theorem ReadyHandleTick_unresolved_cases :
    (exEmptyId.lists "tlist" ≠ [] ∧
      (ReadyHandleTick okOnly DispatchFaults.none 10 exEmptyId "t").jobId = "" ∧
      (ReadyHandleTick okOnly DispatchFaults.none 10 exEmptyId "t").invoked = none ∧
      (ReadyHandleTick okOnly DispatchFaults.none 10 exEmptyId "t").store.lists "tlist" =
        []) ∧
    (exReadyOk.lists "tlist" = ["8"] ∧
      (HDel exHdelFails.hdel exReadyOk "thash" "8").1 = some "hdel: connection lost" ∧
      (ReadyHandleTick okOnly exHdelFails 10 exReadyOk "t").jobId = "8" ∧
      (ReadyHandleTick okOnly exHdelFails 10 exReadyOk "t").invoked = some "ok" ∧
      okOnly "ok" = none ∧
      findName "8" ((ReadyHandleTick okOnly exHdelFails 10 exReadyOk "t").store.hashes
        "thash") = some "ok") ∧
    (exReady.lists "tlist" = ["7", "8"] ∧
      (ReadyHandleTick okOnly exPopFails 10 exReady "t").invoked = none ∧
      (ReadyHandleTick okOnly exPopFails 10 exReady "t").store.lists "tlist" =
        ["7", "8"]) ∧
    (findName "8" (exReadyOk.hashes "thash") = some "ok" ∧
      (ReadyHandleTick okOnly exGetFails 10 exReadyOk "t").jobId = "8" ∧
      (ReadyHandleTick okOnly exGetFails 10 exReadyOk "t").invoked = some "") ∧
    ((ReadyHandleTick okOnly exRetryFails 10 exReady "t").jobId = "7" ∧
      (ReadyHandleTick okOnly exRetryFails 10 exReady "t").invoked = some "hello" ∧
      okOnly "hello" = some "rejected" ∧
      findName "7" ((ReadyHandleTick okOnly exRetryFails 10 exReady "t").store.zsets "t") =
        none) := by
  decide

/-- C5, amended: let the ready list of the topic be `j :: rest` and the pop succeed.
When `j` is the empty string the tick pops it and does nothing else: no callback is
invoked and the store is the one before the tick with `rest` as ready list. When `j` is
not the empty string and the payload read succeeds, the tick pops `j`, leaving `rest`,
and invokes the callback with the payload recorded for `j` under `topic ++ "hash"` (the
empty string when none is recorded). When the callback returns nil and the deletion
succeeds, the payload record of `j` is deleted, the other records stay and no scheduled
set changes. When it returns an error and the insert succeeds, the scheduled set of the
topic binds `j` to `now + 5` in `int64` arithmetic (`now + 5` itself when that fits), the
other members stay and no hash map changes. -/
theorem ReadyHandleTick_resolves (handle : Callback) (f : DispatchFaults) (now : Int)
    (st : Store) (topic : String) (j : String) (rest : List String)
    (hl : st.lists (topic ++ "list") = j :: rest) (hpop : f.lpop = none) :
    (j = "" →
      ReadyHandleTick handle f now st topic = ⟨st.setL (topic ++ "list") rest, "", none⟩) ∧
    (j ≠ "" → f.hget = none →
      (ReadyHandleTick handle f now st topic).jobId = j ∧
      (ReadyHandleTick handle f now st topic).store.lists =
        (st.setL (topic ++ "list") rest).lists ∧
      (ReadyHandleTick handle f now st topic).invoked =
        some ((findName j (st.hashes (topic ++ "hash"))).getD "") ∧
      (handle ((findName j (st.hashes (topic ++ "hash"))).getD "") = none →
        f.hdel = none →
        (ReadyHandleTick handle f now st topic).store =
          (st.setL (topic ++ "list") rest).setH (topic ++ "hash")
            (dropName j (st.hashes (topic ++ "hash"))) ∧
        findName j ((ReadyHandleTick handle f now st topic).store.hashes
          (topic ++ "hash")) = none ∧
        (∀ m, m ≠ j →
          findName m ((ReadyHandleTick handle f now st topic).store.hashes
            (topic ++ "hash")) = findName m (st.hashes (topic ++ "hash"))) ∧
        (ReadyHandleTick handle f now st topic).store.zsets = st.zsets) ∧
      (∀ e, handle ((findName j (st.hashes (topic ++ "hash"))).getD "") = some e →
        f.zadd = none →
        (ReadyHandleTick handle f now st topic).store =
          (st.setL (topic ++ "list") rest).setZ topic
            (dropName j (st.zsets topic) ++ [(j, wrapInt64 (now + 5))]) ∧
        findName j ((ReadyHandleTick handle f now st topic).store.zsets topic) =
          some (wrapInt64 (now + 5)) ∧
        (-2 ^ 63 ≤ now + 5 → now + 5 < 2 ^ 63 → wrapInt64 (now + 5) = now + 5) ∧
        (∀ m, m ≠ j →
          findName m ((ReadyHandleTick handle f now st topic).store.zsets topic) =
            findName m (st.zsets topic)) ∧
        (ReadyHandleTick handle f now st topic).store.hashes = st.hashes)) := by
  refine ⟨?_, ?_⟩
  · intro hj
    simp [ReadyHandleTick, LPop, hpop, hl, hj]
  · intro hj hget
    have hmsg : (HGetString f.hget (st.setL (topic ++ "list") rest) (topic ++ "hash") j).1 =
        (findName j (st.hashes (topic ++ "hash"))).getD "" := by
      simp [HGetString, hget, Store.setL]
    cases hh : handle ((findName j (st.hashes (topic ++ "hash"))).getD "") with
    | none =>
      have hres : ReadyHandleTick handle f now st topic =
          ⟨(HDel f.hdel (st.setL (topic ++ "list") rest) (topic ++ "hash") j).2, j,
            some ((findName j (st.hashes (topic ++ "hash"))).getD "")⟩ := by
        simp [ReadyHandleTick, LPop, hpop, hl, hj, hmsg, hh]
      rw [hres]
      refine ⟨rfl, ?_, rfl, fun _ hdel => ?_, fun e he => absurd he (by simp)⟩
      · cases f.hdel <;> rfl
      · have hst : (HDel f.hdel (st.setL (topic ++ "list") rest) (topic ++ "hash") j).2 =
            (st.setL (topic ++ "list") rest).setH (topic ++ "hash")
              (dropName j (st.hashes (topic ++ "hash"))) := by
          rw [hdel]
          rfl
        rw [hst]
        refine ⟨rfl, ?_, ?_, rfl⟩
        · simp only [hashes_setH]
          exact findName_dropName_self j _
        · intro m hm
          simp only [hashes_setH]
          exact findName_dropName_other j m hm _
    | some e =>
      have hres : ReadyHandleTick handle f now st topic =
          ⟨(ZAdd f.zadd (st.setL (topic ++ "list") rest) topic (wrapInt64 (now + 5)) j).2, j,
            some ((findName j (st.hashes (topic ++ "hash"))).getD "")⟩ := by
        simp [ReadyHandleTick, LPop, hpop, hl, hj, hmsg, hh]
      rw [hres]
      refine ⟨rfl, ?_, rfl, fun hn => absurd hn (by simp), fun e2 _ hzadd => ?_⟩
      · cases f.zadd <;> rfl
      · have hst : (ZAdd f.zadd (st.setL (topic ++ "list") rest) topic
            (wrapInt64 (now + 5)) j).2 =
            (st.setL (topic ++ "list") rest).setZ topic
              (dropName j (st.zsets topic) ++ [(j, wrapInt64 (now + 5))]) := by
          rw [hzadd]
          rfl
        rw [hst]
        refine ⟨rfl, ?_, ?_, ?_, rfl⟩
        · simp only [zsets_setZ]
          exact findName_append_self j _ _
        · intro hlo hhi
          exact wrapInt64_of_fits (now + 5) hlo hhi
        · intro m hm
          simp only [zsets_setZ]
          exact findName_append_other j m hm _ _

/-- At `exReady` the callback rejects the payload `hello` of job `7`, which is scheduled
again; at `exReadyOk` it accepts the payload `ok` of job `8`, whose record is deleted; at
`exEmptyId` the empty string is popped and nothing else is done. -/
theorem ReadyHandleTick_resolves_witness :
    (exReady.lists ("t" ++ "list") = "7" :: ["8"] ∧ "7" ≠ "") ∧
    (ReadyHandleTick okOnly DispatchFaults.none 20 exReady "t").jobId = "7" ∧
    (ReadyHandleTick okOnly DispatchFaults.none 20 exReady "t").invoked =
      some ((findName "7" (exReady.hashes ("t" ++ "hash"))).getD "") ∧
    findName "7" ((ReadyHandleTick okOnly DispatchFaults.none 20 exReady "t").store.zsets "t") =
      some (wrapInt64 (20 + 5)) ∧
    (ReadyHandleTick okOnly DispatchFaults.none 20 exReady "t").store.hashes =
      exReady.hashes ∧
    findName "8" ((ReadyHandleTick okOnly DispatchFaults.none 20 exReadyOk
      "t").store.hashes ("t" ++ "hash")) = none ∧
    (ReadyHandleTick okOnly DispatchFaults.none 20 exReadyOk "t").store.zsets =
      exReadyOk.zsets ∧
    ReadyHandleTick okOnly DispatchFaults.none 20 exEmptyId "t" =
      ⟨exEmptyId.setL ("t" ++ "list") [], "", none⟩ :=
  ⟨⟨by decide, by decide⟩,
    ((ReadyHandleTick_resolves okOnly DispatchFaults.none 20 exReady "t" "7" ["8"]
      (by decide) rfl).2 (by decide) rfl).1,
    ((ReadyHandleTick_resolves okOnly DispatchFaults.none 20 exReady "t" "7" ["8"]
      (by decide) rfl).2 (by decide) rfl).2.2.1,
    ((((ReadyHandleTick_resolves okOnly DispatchFaults.none 20 exReady "t" "7" ["8"]
      (by decide) rfl).2 (by decide) rfl).2.2.2.2) "rejected" (by decide) rfl).2.1,
    ((((ReadyHandleTick_resolves okOnly DispatchFaults.none 20 exReady "t" "7" ["8"]
      (by decide) rfl).2 (by decide) rfl).2.2.2.2) "rejected" (by decide) rfl).2.2.2.2,
    ((((ReadyHandleTick_resolves okOnly DispatchFaults.none 20 exReadyOk "t" "8" []
      (by decide) rfl).2 (by decide) rfl).2.2.2.1) (by decide) rfl).2.1,
    ((((ReadyHandleTick_resolves okOnly DispatchFaults.none 20 exReadyOk "t" "8" []
      (by decide) rfl).2 (by decide) rfl).2.2.2.1) (by decide) rfl).2.2.2,
    (ReadyHandleTick_resolves okOnly DispatchFaults.none 20 exEmptyId "t" "" []
      (by decide) rfl).1 rfl⟩

/-! ## Order of the ready list -/

/-- C6: the ready list is first in, first out. A promotion tick leaves on the ready list
what was there, followed by the values it pushed in the order of its pushes; the dispatch
ticks that follow pop exactly that sequence from its left end, one value per tick and
whatever the callback answers, so a value pushed earlier is popped earlier (ticks beyond
the length of the list pop nothing). -/
theorem ready_list_fifo (handle : Callback) (f : PromoteFaults) (now : Int) (st : Store)
    (topic : String) (nows : List Int) :
    (DelayHandleTick f now st topic).lists (topic ++ "list") =
      st.lists (topic ++ "list") ++
        pushedValues f.lpush (List.range (dueMembers f now st topic).length) ∧
    (dispatchRun handle topic nows (DelayHandleTick f now st topic)).1 =
      (st.lists (topic ++ "list") ++
        pushedValues f.lpush (List.range (dueMembers f now st topic).length)).take
          nows.length ++
        List.replicate (nows.length - (st.lists (topic ++ "list") ++
          pushedValues f.lpush (List.range (dueMembers f now st topic).length)).length) "" := by
  refine ⟨DelayHandleTick_lists f now st topic, ?_⟩
  rw [dispatchRun_pops, DelayHandleTick_lists]

/-- At `exBacklog`: the tick at time 10 appends three values behind `x`, and three
dispatch ticks pop `x` and the first two of them, in that order. -/
theorem ready_list_fifo_witness :
    (DelayHandleTick PromoteFaults.none 10 exBacklog "t").lists ("t" ++ "list") =
      ["x", "0", "1", "2"] ∧
    (dispatchRun okOnly "t" [11, 12, 13]
      (DelayHandleTick PromoteFaults.none 10 exBacklog "t")).1 = ["x", "0", "1"] :=
  ⟨(ready_list_fifo okOnly PromoteFaults.none 10 exBacklog "t" [11, 12, 13]).1.trans
      (by decide),
    (ready_list_fifo okOnly PromoteFaults.none 10 exBacklog "t" [11, 12, 13]).2.trans
      (by decide)⟩

end DelayQueue
